import Mathlib

/-!
# Verification of the skill-package validator

Shallow embedding of `scripts/validate-skill.py`, a 29-point checklist
evaluator over a target directory.  File contents are modelled as Unicode
strings (`String`); directory state is modelled explicitly by `DirState`.
Python regular-expression searches are modelled operationally, following
the backtracking priorities of the `re` module (greedy `*` prefers the
longest extent first, lazy `*?` the shortest, earlier choice points
dominate later ones).  Case mapping models Python `.lower()` and
`re.IGNORECASE` on ASCII text.
-/

namespace SkillValidator

/-- Characters matched by the Python regex class `\s` (and stripped by
`str.strip()` with no arguments): ASCII whitespace, the file/group/record/unit
separators, next-line, and the Unicode space characters. -/
def isWs (c : Char) : Bool :=
  c = ' ' || c = '\t' || c = '\n' || c = '\r' || c = '\x0b' || c = '\x0c' ||
  c = '\x1c' || c = '\x1d' || c = '\x1e' || c = '\x1f' || c = '\x85' ||
  c = '\xa0' || c = '\u1680' || ('\u2000' ≤ c && c ≤ '\u200a') ||
  c = '\u2028' || c = '\u2029' || c = '\u202f' || c = '\u205f' || c = '\u3000'

/-- Python `str.strip()`: drop leading and trailing whitespace. -/
def stripWs (cs : List Char) : List Char :=
  ((cs.dropWhile isWs).reverse.dropWhile isWs).reverse

/-- A quote character, single or double (the argument of `.strip(quotes)`
at `validate-skill.py:40`). -/
def isQuote (c : Char) : Bool :=
  c = '"' || c = '\x27'

/-- Python `str.strip(quotes)`: drop ALL leading and trailing quote
characters, in any combination, regardless of pairing. -/
def stripQuoteChars (cs : List Char) : List Char :=
  ((cs.dropWhile isQuote).reverse.dropWhile isQuote).reverse

/-- Python `str.split()` with no separator: whitespace-delimited words,
leading/trailing whitespace ignored.  `acc` holds the current word reversed. -/
def splitWsAux : List Char → List Char → List (List Char)
  | [], acc => if acc.isEmpty then [] else [acc.reverse]
  | c :: rest, acc =>
    if isWs c then
      if acc.isEmpty then splitWsAux rest [] else acc.reverse :: splitWsAux rest []
    else splitWsAux rest (c :: acc)

def splitWsWords (cs : List Char) : List (List Char) :=
  splitWsAux cs []

/-- Join word lists with single spaces (Python `' '.join(words)`). -/
def joinSpace : List (List Char) → List Char
  | [] => []
  | [w] => w
  | w :: ws => w ++ ' ' :: joinSpace ws

/-- `' '.join(text.strip().split())` at `validate-skill.py:45`. -/
def collapseWs (cs : List Char) : List Char :=
  joinSpace (splitWsWords (stripWs cs))

/-- Split a document into its lines at `'\n'` (the candidate anchor points
of a `re.MULTILINE` `^`).  `acc` holds the current line reversed. -/
def splitNlAux : List Char → List Char → List (List Char)
  | [], acc => [acc.reverse]
  | c :: rest, acc =>
    if c = '\n' then acc.reverse :: splitNlAux rest [] else splitNlAux rest (c :: acc)

def splitNl (cs : List Char) : List (List Char) :=
  splitNlAux cs []

/-- Rejoin lines with `'\n'`; inverse of `splitNl`. -/
def joinNl : List (List Char) → List Char
  | [] => []
  | [l] => l
  | l :: ls => l ++ '\n' :: joinNl ls

/-- The document text that follows the current line, newline included
(empty when the current line is the last one). -/
def tailJoin : List (List Char) → List Char
  | [] => []
  | l :: ls => '\n' :: joinNl (l :: ls)

theorem splitNlAux_ne_nil (cs : List Char) : ∀ acc, splitNlAux cs acc ≠ [] := by
  induction cs with
  | nil => intro acc; simp [splitNlAux]
  | cons c rest ih =>
    intro acc
    by_cases h : c = '\n'
    · simp [splitNlAux, h]
    · simpa [splitNlAux, h] using ih (c :: acc)

theorem joinNl_splitNlAux (cs acc : List Char) :
    joinNl (splitNlAux cs acc) = acc.reverse ++ cs := by
  induction cs generalizing acc with
  | nil => simp [splitNlAux, joinNl]
  | cons c rest ih =>
    by_cases h : c = '\n'
    · subst h
      simp only [splitNlAux, if_pos rfl]
      cases hsplit : splitNlAux rest [] with
      | nil => exact absurd hsplit (splitNlAux_ne_nil rest [])
      | cons l ls =>
        have hrest := ih []
        rw [hsplit] at hrest
        simp only [List.reverse_nil, List.nil_append] at hrest
        simp [joinNl, hrest]
    · simp only [splitNlAux, if_neg h]
      rw [ih (c :: acc)]
      simp

/-- `splitNl` loses no text: rejoining the lines restores the document. -/
theorem joinNl_splitNl (cs : List Char) : joinNl (splitNl cs) = cs := by
  simpa using joinNl_splitNlAux cs []

theorem splitNlAux_no_newline (cs : List Char) :
    ∀ acc, '\n' ∉ acc → ∀ l ∈ splitNlAux cs acc, '\n' ∉ l := by
  induction cs with
  | nil =>
    intro acc hacc l hl
    simp [splitNlAux] at hl
    subst hl
    simpa using hacc
  | cons c rest ih =>
    intro acc hacc l hl
    by_cases h : c = '\n'
    · subst h
      simp only [splitNlAux, if_pos rfl, List.mem_cons] at hl
      cases hl with
      | head => simpa using hacc
      | tail b h1 => exact ih [] (by simp) l h1
    · simp only [splitNlAux, if_neg h] at hl
      refine ih (c :: acc) ?_ l hl
      simp only [List.mem_cons, not_or]
      exact ⟨fun hc => h hc.symm, hacc⟩

/-- No line produced by `splitNl` contains a newline. -/
theorem splitNl_no_newline (cs : List Char) : ∀ l ∈ splitNl cs, '\n' ∉ l :=
  splitNlAux_no_newline cs [] (by simp)

/-! ## The front-matter delimiter regex

`re.match(r'^---\s*\n(.*?)\n---\s*\n', content, re.DOTALL)` at
`validate-skill.py:29`.  `consumeWsNl` matches `\s*\n` with a greedy `\s*`:
it prefers to extend the whitespace run and, on failure of the deeper
alternative, lets the current character serve as the literal `\n`.
`findClose` matches `(.*?)\n---\s*\n` with a lazy group: it accepts the
earliest closing delimiter; a candidate whose trailing `\s*\n` fails is
absorbed into the group.  `openThenClose` matches `\s*\n` of the opening
delimiter with the same greedy preference, backtracking into earlier
newline choices when no closing delimiter can be found. -/

/-- Match `\s*\n` (greedy), returning the text after the matched newline. -/
def consumeWsNl : List Char → Option (List Char)
  | [] => none
  | c :: rest =>
    if isWs c then
      match consumeWsNl rest with
      | some r => some r
      | none => if c = '\n' then some rest else none
    else none

/-- Match `(.*?)\n---\s*\n` (lazy group), returning the group text and the
text after the closing delimiter. -/
def findClose : List Char → Option (List Char × List Char)
  | [] => none
  | c :: rest =>
    if c = '\n' && ['-', '-', '-'].isPrefixOf rest then
      match consumeWsNl (rest.drop 3) with
      | some r => some ([], r)
      | none => (findClose rest).map (fun p => (c :: p.1, p.2))
    else (findClose rest).map (fun p => (c :: p.1, p.2))

/-- Match `\s*\n(.*?)\n---\s*\n` after the opening `---`: greedy `\s*`, with
backtracking to earlier newlines when no closing delimiter follows. -/
def openThenClose : List Char → Option (List Char × List Char)
  | [] => none
  | c :: rest =>
    if isWs c then
      match openThenClose rest with
      | some p => some p
      | none => if c = '\n' then findClose rest else none
    else none

/-- The full delimiter match: front-matter text and body, or `none` when the
document does not begin with a well-delimited front-matter block. -/
def fmMatch (cs : List Char) : Option (List Char × List Char) :=
  if ['-', '-', '-'].isPrefixOf cs then openThenClose (cs.drop 3) else none

/-! ## Field extraction from the front-matter text -/

/-- Match `\s*(.+)$` (`re.MULTILINE`, no `re.DOTALL`): greedy `\s*` (which may
cross newlines), then at least one non-newline character up to the end of the
line.  Returns the text captured by `(.+)`. -/
def nameValue : List Char → Option (List Char)
  | [] => none
  | c :: rest =>
    if isWs c then
      match nameValue rest with
      | some v => some v
      | none =>
        if c = '\n' then none
        else some (c :: rest.takeWhile (fun d => !(d = '\n')))
    else some (c :: rest.takeWhile (fun d => !(d = '\n')))

/-- `re.search(r'^KEY\s*(.+)$', text, re.MULTILINE)`: try each line start in
order; at a line starting with `key`, match `\s*(.+)$` against the remainder
of the document from the end of the key onward. -/
def keyLineSearch (key : List Char) : List (List Char) → Option (List Char)
  | [] => none
  | l :: rest =>
    if key.isPrefixOf l then
      match nameValue (l.drop key.length ++ tailJoin rest) with
      | some v => some v
      | none => keyLineSearch key rest
    else keyLineSearch key rest

/-- Match `.+\n?` at a position whose first character is not a newline:
consume the rest of the line and at most one following newline. -/
def afterDotPlus (cs : List Char) : List Char :=
  (cs.dropWhile (fun d => !(d = '\n'))).drop 1

/-- Match `\s*.+\n?` after at least one whitespace character was consumed:
greedy `\s*`, falling back to starting `.+` at the current character. -/
def descRepAux : List Char → Option (List Char)
  | [] => none
  | c :: rest =>
    if isWs c then
      match descRepAux rest with
      | some r => some r
      | none =>
        if c = '\n' then none else some (afterDotPlus (c :: rest))
    else some (afterDotPlus (c :: rest))

/-- One repetition of `\s+.+\n?` in the block-description group. -/
def descRep : List Char → Option (List Char)
  | [] => none
  | c :: rest => if isWs c then descRepAux rest else none

/-- Iterate `(?:\s+.+\n?)*` greedily.  Each repetition consumes at least one
character, so `cs.length` steps of fuel always suffice. -/
def descRepsGo : Nat → List Char → List Char
  | 0, cs => cs
  | fuel + 1, cs =>
    match descRep cs with
    | some r => descRepsGo fuel r
    | none => cs

/-- The text captured by `((?:\s+.+\n?)*)`. -/
def descGroup (cs : List Char) : List Char :=
  cs.take (cs.length - (descRepsGo cs.length cs).length)

/-- Match `\s*[>|]\s*\n((?:\s+.+\n?)*)` after `description:`: the first
non-whitespace character must be a block marker, then a greedy `\s*\n`, then
the indented continuation lines. -/
def descBlockAt (cs : List Char) : Option (List Char) :=
  match cs.dropWhile isWs with
  | [] => none
  | c :: rest =>
    if c = '>' || c = '|' then
      match consumeWsNl rest with
      | some r => some (descGroup r)
      | none => none
    else none

/-- `re.search(r'^description:\s*[>|]\s*\n((?:\s+.+\n?)*)', text,
re.MULTILINE)` at `validate-skill.py:43`. -/
def descBlockSearch (key : List Char) : List (List Char) → Option (List Char)
  | [] => none
  | l :: rest =>
    if key.isPrefixOf l then
      match descBlockAt (l.drop key.length ++ tailJoin rest) with
      | some g => some g
      | none => descBlockSearch key rest
    else descBlockSearch key rest

def nameKey : List Char := ['n', 'a', 'm', 'e', ':']

def descKey : List Char :=
  ['d', 'e', 's', 'c', 'r', 'i', 'p', 't', 'i', 'o', 'n', ':']

/-- The two recognized front-matter fields.  A missing key is `none`,
distinct from an empty value. -/
structure FrontMatter where
  name : Option String
  description : Option String
deriving DecidableEq

/-- Result of `parse_frontmatter`: the Python function returns the triple
`(data_dict_or_None, body, error_or_None)`. -/
structure FMParse where
  data : Option FrontMatter
  body : String
  error : Option String
deriving DecidableEq

/-- Extract the two fields from the front-matter text
(`validate-skill.py:36-49`): `name` from the first matching `name:` line,
stripped of whitespace and quote characters; `description` preferring the
block form, else the inline form. -/
def fmFields (fmText : List Char) : FrontMatter :=
  let lines := splitNl fmText
  let nameVal := (keyLineSearch nameKey lines).map
    (fun g => String.mk (stripQuoteChars (stripWs g)))
  let descVal :=
    match descBlockSearch descKey lines with
    | some g => some (String.mk (collapseWs g))
    | none => (keyLineSearch descKey lines).map
        (fun g => String.mk (stripQuoteChars (stripWs g)))
  ⟨nameVal, descVal⟩

/-- `parse_frontmatter` (`validate-skill.py:27-51`): extract the YAML
front matter between `---` delimiters; on failure return the whole content
as body together with the error message. -/
def parse_frontmatter (content : String) : FMParse :=
  match fmMatch content.data with
  | none => ⟨none, content, some "No YAML frontmatter found"⟩
  | some (fmText, body) => ⟨some (fmFields fmText), String.mk body, none⟩

/-! ## Constants (`validate-skill.py:9-24`) -/

def PASS_THRESHOLD : Nat := 24

def MAX_TOKENS : Nat := 5000

def MAX_NAME_LEN : Nat := 64

def MAX_DESC_LEN : Nat := 1024

def MIN_DESC_LEN : Nat := 50

def NATURAL_KEYWORDS : List String :=
  ["refactor", "clean up", "improve", "fix", "simplify",
   "messy", "complex", "debt", "quality"]

def TECHNICAL_KEYWORDS : List String :=
  ["code smell", "complexity", "coupling", "cohesion",
   "duplication", "dry", "pattern"]

/-! ## Pattern tests used by the checks -/

/-- A character of the class `[a-z0-9-]` in `NAME_REGEX`. -/
def isNameChar (c : Char) : Bool :=
  ('a' ≤ c && c ≤ 'z') || ('0' ≤ c && c ≤ '9') || c = '-'

/-- `re.match(r'^[a-z0-9-]+$', s)`: one or more allowed characters spanning
the whole string, where the unanchored-mode `$` also accepts a position just
before a single trailing newline. -/
def nameRegexMatch (s : String) : Bool :=
  match s.data.getLast? with
  | none => false
  | some c =>
    if c = '\n' then !s.data.dropLast.isEmpty && s.data.dropLast.all isNameChar
    else s.data.all isNameChar

/-- Python substring containment `needle in hay` on character lists. -/
def subSearch (needle : List Char) : List Char → Bool
  | [] => needle.isEmpty
  | c :: rest => needle.isPrefixOf (c :: rest) || subSearch needle rest

/-- Python `s.lower()` (ASCII case mapping). -/
def lowerStr (s : String) : String :=
  String.mk (s.data.map Char.toLower)

/-- `kw in s` for strings. -/
def containsSub (hay needle : String) : Bool :=
  subSearch needle.data hay.data

def autoKey : List Char := ['a', 'u', 't', 'o']

def invocKey : List Char := ['i', 'n', 'v', 'o', 'c']

/-- Match `auto.?invoc` at the head of a lowercased character list: `auto`,
then at most one optional character that is not a newline, then `invoc`. -/
def autoInvocAt (cs : List Char) : Bool :=
  autoKey.isPrefixOf cs &&
    (invocKey.isPrefixOf (cs.drop 4) ||
      (match cs.drop 4 with
       | c :: rest => !(c = '\n') && invocKey.isPrefixOf rest
       | [] => false))

def autoInvocSearch : List Char → Bool
  | [] => false
  | c :: rest => autoInvocAt (c :: rest) || autoInvocSearch rest

/-- `re.search(r'auto.?invoc', body, re.IGNORECASE)` at
`validate-skill.py:151`. -/
def containsAutoInvoc (body : String) : Bool :=
  autoInvocSearch (body.data.map Char.toLower)

/-- Format a number with thousands separators (the `:,` format spec). -/
def commaFmt (n : Nat) : String :=
  String.mk ((((toString n).data.reverse.toChunks 3).intersperse [',']).flatten.reverse)

/-! ## Check results and the three evaluators -/

/-- One row of the checklist: `(name, passed, points, max_points, detail)`. -/
structure CheckResult where
  label : String
  passed : Bool
  points : Nat
  maxPoints : Nat
  detail : String
deriving DecidableEq

/-- Critical check 3 (`validate-skill.py:76-80`): the `name` field is
truthy, matches `NAME_REGEX` and is at most `MAX_NAME_LEN` characters. -/
def criticalNameCheck (data : Option FrontMatter) : CheckResult :=
  let nm := match data with
    | some d => d.name.getD ""
    | none => ""
  let valid := !nm.isEmpty && nameRegexMatch nm && decide (nm.length ≤ MAX_NAME_LEN)
  ⟨"name field valid", valid, cond valid 3 0, 3, cond valid (": " ++ nm) ""⟩

/-- Critical check 4 (`validate-skill.py:82-85`): the `description` field is
truthy and at most `MAX_DESC_LEN` characters. -/
def criticalDescCheck (data : Option FrontMatter) : CheckResult :=
  let d := match data with
    | some d => d.description.getD ""
    | none => ""
  let valid := !d.isEmpty && decide (d.length ≤ MAX_DESC_LEN)
  ⟨"description field valid", valid, cond valid 3 0, 3, ""⟩

/-- Critical check 5 (`validate-skill.py:87-90`): the body text is truthy
and non-blank after stripping. -/
def criticalBodyCheck (bodyText : String) : CheckResult :=
  let valid := !bodyText.isEmpty && !(stripWs bodyText.data).isEmpty
  ⟨"Body non-empty", valid, cond valid 3 0, 3, ""⟩

/-- The placeholder failing rows recorded when no manifest content could be
read (`validate-skill.py:63-68`). -/
def criticalPlaceholders : List CheckResult :=
  [⟨"Valid YAML frontmatter", false, 0, 3, "No content to parse"⟩,
   ⟨"name field valid", false, 0, 3, ""⟩,
   ⟨"description field valid", false, 0, 3, ""⟩,
   ⟨"Body non-empty", false, 0, 3, ""⟩]

/-- `validate_critical` (`validate-skill.py:54-92`).  `content` is `none`
when `SKILL.md` was missing or unreadable; the Python `if not content:` also
treats an empty string as missing content. -/
def validate_critical (skillExists : Bool) (content : Option String) :
    List CheckResult :=
  let c1 : CheckResult :=
    ⟨"SKILL.md exists", skillExists, cond skillExists 3 0, 3, ""⟩
  match content with
  | none => c1 :: criticalPlaceholders
  | some s =>
    if s.isEmpty then c1 :: criticalPlaceholders
    else
      let pr := parse_frontmatter s
      let fmValid := pr.data.isSome
      let c2 : CheckResult :=
        ⟨"Valid YAML frontmatter", fmValid, cond fmValid 3 0, 3, pr.error.getD ""⟩
      let bodyText := if pr.data.isSome then pr.body else s
      [c1, c2, criticalNameCheck pr.data, criticalDescCheck pr.data,
       criticalBodyCheck bodyText]

/-- Outcome of reading and JSON-parsing one structured file.  `container`
is a decoded object, array or string, on which Python `in` performs a
membership test; `scalar` is a decoded number, boolean or null, on which
`in` raises an uncaught `TypeError`. -/
inductive JsonFile
  | absent
  | unreadable
  | malformed
  | container (hasName : Bool) (hasVersion : Bool)
  | scalar
deriving DecidableEq

/-- `'name' in data` for `.claude-skill.json` (`validate-skill.py:122-128`):
read failures and decode errors are caught and give `False`; a scalar
document raises `TypeError`, which the `except` clause does not catch. -/
def jsonNameMembership : JsonFile → Except Unit Bool
  | .absent => .ok false
  | .unreadable => .ok false
  | .malformed => .ok false
  | .container hasName _ => .ok hasName
  | .scalar => .error ()

/-- `'name' in data and 'version' in data` for `package.json`
(`validate-skill.py:134-140`), with the same failure behaviour. -/
def jsonNameVersionMembership : JsonFile → Except Unit Bool
  | .absent => .ok false
  | .unreadable => .ok false
  | .malformed => .ok false
  | .container hasName hasVersion => .ok (hasName && hasVersion)
  | .scalar => .error ()

/-- `validate_structure` (`validate-skill.py:95-143`).  `refsMd`/`cmdsMd`
are the recursive `.md` file counts that `os.walk` would produce when the
directory exists; an uncaught `TypeError` from a scalar JSON document
aborts the run (`Except.error`). -/
def validate_structure (refsExists : Bool) (refsMd : Nat)
    (cmdsExists : Bool) (cmdsMd : Nat) (claudeJson pkgJson : JsonFile) :
    Except Unit (List CheckResult) :=
  let mdCount := cond refsExists refsMd 0
  let refsValid := decide (0 < mdCount)
  let rdetail := cond refsValid (" (" ++ toString mdCount ++ " files)") ""
  let c1 : CheckResult :=
    ⟨"references/ exists" ++ rdetail, refsValid, cond refsValid 2 0, 2, ""⟩
  let cmdCount := cond cmdsExists cmdsMd 0
  let cmdsValid := decide (0 < cmdCount)
  let cdetail := cond cmdsValid (" (" ++ toString cmdCount ++ " files)") ""
  let c2 : CheckResult :=
    ⟨"commands/ exists" ++ cdetail, cmdsValid, cond cmdsValid 2 0, 2, ""⟩
  match jsonNameMembership claudeJson with
  | .error e => .error e
  | .ok jsonValid =>
    let c3 : CheckResult :=
      ⟨".claude-skill.json valid", jsonValid, cond jsonValid 2 0, 2, ""⟩
    match jsonNameVersionMembership pkgJson with
    | .error e => .error e
    | .ok pkgValid =>
      let c4 : CheckResult :=
        ⟨"package.json valid", pkgValid, cond pkgValid 1 0, 1, ""⟩
      .ok [c1, c2, c3, c4]

/-- Quality check 1 (`validate-skill.py:150-153`): the body is truthy and
matches `auto.?invoc` case-insensitively. -/
def qualityCheck1 (body : String) : CheckResult :=
  let p := !body.isEmpty && containsAutoInvoc body
  ⟨"Auto-invocation section present", p, cond p 2 0, 2, ""⟩

/-- Quality check 2 (`validate-skill.py:155-160`): the lowercased
description contains a natural keyword and a technical keyword. -/
def qualityCheck2 (description : String) : CheckResult :=
  let descLower := lowerStr description
  let hasNatural := NATURAL_KEYWORDS.any (fun kw => containsSub descLower kw)
  let hasTechnical := TECHNICAL_KEYWORDS.any (fun kw => containsSub descLower kw)
  let dual := hasNatural && hasTechnical
  ⟨"Dual keywords in description", dual, cond dual 2 0, 2, ""⟩

/-- Quality check 3 (`validate-skill.py:162-166`): the estimated token
count `len(body) // 4` is strictly below `MAX_TOKENS`. -/
def qualityCheck3 (body : String) : CheckResult :=
  let tokenCount := body.length / 4
  let tokenOk := decide (tokenCount < MAX_TOKENS)
  let detail := ": " ++ commaFmt tokenCount ++ " (" ++ cond tokenOk "<" ">" ++
    " " ++ commaFmt MAX_TOKENS ++ ")"
  ⟨"Token count" ++ detail, tokenOk, cond tokenOk 2 0, 2, ""⟩

/-- Quality check 4 (`validate-skill.py:168-172`): the description is
strictly longer than `MIN_DESC_LEN` characters. -/
def qualityCheck4 (description : String) : CheckResult :=
  let descLen := description.length
  let descOk := decide (MIN_DESC_LEN < descLen)
  let detail := ": " ++ toString descLen ++ " chars (" ++ cond descOk ">" "<=" ++
    " " ++ toString MIN_DESC_LEN ++ ")"
  ⟨"Description length" ++ detail, descOk, cond descOk 1 0, 1, ""⟩

/-- `validate_quality` (`validate-skill.py:146-174`). -/
def validate_quality (body description : String) : List CheckResult :=
  [qualityCheck1 body, qualityCheck2 description,
   qualityCheck3 body, qualityCheck4 description]

/-! ## The directory state and the `main` pipeline -/

/-- Outcome of looking up and reading `SKILL.md`: not a file, a file whose
`open`/`read` raises `PermissionError`, or a readable text file. -/
inductive SkillFile
  | absent
  | unreadable
  | readable (content : String)
deriving DecidableEq

/-- The filesystem state a single run observes, one field per distinct
read performed by the program. -/
structure DirState where
  skill : SkillFile
  refsExists : Bool
  refsMd : Nat
  cmdsExists : Bool
  cmdsMd : Nat
  claudeJson : JsonFile
  pkgJson : JsonFile
deriving DecidableEq

/-- `os.path.isfile(skill_file)` (`validate-skill.py:211`): true also for
an unreadable file. -/
def skillIsFile : SkillFile → Bool
  | .absent => false
  | .unreadable => true
  | .readable _ => true

/-- The `content` variable after `main` attempts the read
(`validate-skill.py:210-216`): `None` unless the file exists and is
readable. -/
def skillContent : SkillFile → Option String
  | .readable s => some s
  | _ => none

/-- `main`, lines 218-224: derive `body` and `description` for the quality
checks; both default to the empty string, and `description` is set only
when front matter parsed. -/
def mainBodyDesc (content : Option String) : String × String :=
  match content with
  | none => ("", "")
  | some s =>
    if s.isEmpty then ("", "")
    else
      let pr := parse_frontmatter s
      (pr.body,
        match pr.data with
        | some d => d.description.getD ""
        | none => "")

/-- The observable outcome of a completed run: the 13 check rows, the
total and maximum scores, and the process exit code. -/
structure RunResult where
  checks : List CheckResult
  score : Nat
  maxScore : Nat
  exitCode : Nat
deriving DecidableEq

deriving instance DecidableEq for Except

/-- `main` (`validate-skill.py:204-236`): run the three evaluators, sum
the scores and set the exit code from the threshold.  `Except.error` is an
uncaught exception escaping `main` (no report printed, interpreter exits
abnormally). -/
def runMain (st : DirState) : Except Unit RunResult :=
  let content := skillContent st.skill
  let bd := mainBodyDesc content
  let critical := validate_critical (skillIsFile st.skill) content
  match validate_structure st.refsExists st.refsMd st.cmdsExists st.cmdsMd
      st.claudeJson st.pkgJson with
  | .error e => .error e
  | .ok structChecks =>
    let quality := validate_quality bd.1 bd.2
    let allChecks := critical ++ structChecks ++ quality
    let score := (allChecks.map CheckResult.points).sum
    let maxScore := (allChecks.map CheckResult.maxPoints).sum
    .ok ⟨allChecks, score, maxScore, if PASS_THRESHOLD ≤ score then 0 else 1⟩

/-! ## Helper lemmas -/

/-- `subSearch` decides substring containment. -/
theorem subSearch_iff (needle hay : List Char) :
    subSearch needle hay = true ↔ ∃ p s, hay = p ++ needle ++ s := by
  induction hay with
  | nil =>
    simp only [subSearch, List.isEmpty_iff]
    constructor
    · rintro rfl; exact ⟨[], [], rfl⟩
    · rintro ⟨p, s, h⟩
      rcases List.append_eq_nil.mp (List.append_eq_nil.mp h.symm).1 with ⟨-, h2⟩
      exact h2
  | cons c rest ih =>
    simp only [subSearch, Bool.or_eq_true, List.isPrefixOf_iff_prefix, ih]
    constructor
    · rintro (⟨t, ht⟩ | ⟨p, s, rfl⟩)
      · exact ⟨[], t, by simpa using ht.symm⟩
      · exact ⟨c :: p, s, rfl⟩
    · rintro ⟨p, s, hp⟩
      cases p with
      | nil => exact Or.inl ⟨s, by simpa using hp.symm⟩
      | cons d p =>
        right
        refine ⟨p, s, ?_⟩
        have := hp
        simp only [List.cons_append] at this
        exact (List.cons_eq_cons.mp this).2

theorem validate_quality_length (body description : String) :
    (validate_quality body description).length = 4 := rfl

theorem validate_quality_maxSum (body description : String) :
    ((validate_quality body description).map CheckResult.maxPoints).sum = 7 := rfl

/-! ## Claim C7: the token-count bound is strict at 5000 -/

/-- C7: quality check 3 passes exactly when `len(body) // 4 < 5000`; a body
of 20000 characters (estimated count 5000) fails, one of 19999 characters
(estimated count 4999) passes. -/
theorem token_count_strict_bound (body : String) :
    ((qualityCheck3 body).passed = true ↔ body.length / 4 < 5000) ∧
    ((qualityCheck3 body).points = 2 ↔ (qualityCheck3 body).passed = true) ∧
    (body.length = 20000 → (qualityCheck3 body).passed = false) ∧
    (body.length = 19999 → (qualityCheck3 body).passed = true) := by
  refine ⟨by simp [qualityCheck3, MAX_TOKENS], ?_, ?_, ?_⟩
  · by_cases h : body.length / 4 < 5000 <;>
      simp [qualityCheck3, MAX_TOKENS, h]
  · intro h; simp [qualityCheck3, MAX_TOKENS, h]
  · intro h; simp [qualityCheck3, MAX_TOKENS, h]

/-- Witness for C7 at concrete boundary inputs. -/
theorem token_count_strict_bound_witness :
    (qualityCheck3 (String.mk (List.replicate 20000 'a'))).passed = false ∧
    (qualityCheck3 (String.mk (List.replicate 19999 'b'))).passed = true := by
  constructor
  · exact (token_count_strict_bound (String.mk (List.replicate 20000 'a'))).2.2.1
      (by simp only [String.length, List.length_replicate])
  · exact (token_count_strict_bound (String.mk (List.replicate 19999 'b'))).2.2.2
      (by simp only [String.length, List.length_replicate])

/-! ## Claim C8: both keyword categories are required -/

/-- C8: quality check 2 awards its 2 points exactly when the lowercased
description has a substring from the natural-keyword list and a substring
from the technical-keyword list; a description of just `refactor` scores 0,
and `refactor coupling` scores 2. -/
theorem dual_keywords_iff (description : String) :
    ((qualityCheck2 description).points = 2 ↔
      ((∃ kw ∈ NATURAL_KEYWORDS,
          ∃ p s, (lowerStr description).data = p ++ kw.data ++ s) ∧
       (∃ kw ∈ TECHNICAL_KEYWORDS,
          ∃ p s, (lowerStr description).data = p ++ kw.data ++ s))) ∧
    (qualityCheck2 "refactor").points = 0 ∧
    (qualityCheck2 "refactor coupling").points = 2 := by
  refine ⟨?_, by decide, by decide⟩
  have hpts : (qualityCheck2 description).points = 2 ↔
      (qualityCheck2 description).passed = true := by
    by_cases h : (NATURAL_KEYWORDS.any fun kw => containsSub (lowerStr description) kw) &&
        (TECHNICAL_KEYWORDS.any fun kw => containsSub (lowerStr description) kw) <;>
      simp [qualityCheck2, h]
  rw [hpts]
  simp only [qualityCheck2, Bool.and_eq_true, List.any_eq_true, containsSub,
    subSearch_iff]

/-! ## Claim C10: substring matching lets one word satisfy both sets -/

/-- C10: keyword matching is plain substring containment, so the single
word `complexity` matches the natural keyword `complex` and the technical
keyword `complexity`, and quality check 2 awards its full 2 points. -/
theorem single_word_satisfies_both_keyword_sets :
    (qualityCheck2 "complexity").passed = true ∧
    (qualityCheck2 "complexity").points = 2 ∧
    containsSub (lowerStr "complexity") "complex" = true ∧
    containsSub (lowerStr "complexity") "complexity" = true := by
  refine ⟨?_, ?_, ?_, ?_⟩ <;> decide

/-! ## Decomposing a completed run -/

theorem runMain_eq_ok (st : DirState) (ss : List CheckResult)
    (hs : validate_structure st.refsExists st.refsMd st.cmdsExists st.cmdsMd
      st.claudeJson st.pkgJson = Except.ok ss) :
    runMain st = Except.ok
      ⟨validate_critical (skillIsFile st.skill) (skillContent st.skill) ++ ss ++
        validate_quality (mainBodyDesc (skillContent st.skill)).1
          (mainBodyDesc (skillContent st.skill)).2,
       ((validate_critical (skillIsFile st.skill) (skillContent st.skill) ++ ss ++
        validate_quality (mainBodyDesc (skillContent st.skill)).1
          (mainBodyDesc (skillContent st.skill)).2).map CheckResult.points).sum,
       ((validate_critical (skillIsFile st.skill) (skillContent st.skill) ++ ss ++
        validate_quality (mainBodyDesc (skillContent st.skill)).1
          (mainBodyDesc (skillContent st.skill)).2).map CheckResult.maxPoints).sum,
       if PASS_THRESHOLD ≤
          ((validate_critical (skillIsFile st.skill) (skillContent st.skill) ++ ss ++
            validate_quality (mainBodyDesc (skillContent st.skill)).1
              (mainBodyDesc (skillContent st.skill)).2).map CheckResult.points).sum
       then 0 else 1⟩ := by
  unfold runMain
  rw [hs]

theorem runMain_eq_error (st : DirState) (e : Unit)
    (hs : validate_structure st.refsExists st.refsMd st.cmdsExists st.cmdsMd
      st.claudeJson st.pkgJson = Except.error e) :
    runMain st = Except.error e := by
  unfold runMain
  rw [hs]

theorem runMain_ok_inv (st : DirState) (r : RunResult)
    (h : runMain st = Except.ok r) :
    ∃ ss, validate_structure st.refsExists st.refsMd st.cmdsExists st.cmdsMd
        st.claudeJson st.pkgJson = Except.ok ss ∧
      r.checks = validate_critical (skillIsFile st.skill) (skillContent st.skill) ++
        ss ++ validate_quality (mainBodyDesc (skillContent st.skill)).1
          (mainBodyDesc (skillContent st.skill)).2 ∧
      r.score = (r.checks.map CheckResult.points).sum ∧
      r.maxScore = (r.checks.map CheckResult.maxPoints).sum ∧
      r.exitCode = if PASS_THRESHOLD ≤ r.score then 0 else 1 := by
  cases hs : validate_structure st.refsExists st.refsMd st.cmdsExists st.cmdsMd
      st.claudeJson st.pkgJson with
  | error e =>
    rw [runMain_eq_error st e hs] at h
    cases h
  | ok ss =>
    rw [runMain_eq_ok st ss hs] at h
    cases h
    exact ⟨ss, rfl, rfl, rfl, rfl, rfl⟩

/-! ## Claim C6: the exit code is the threshold comparison -/

/-- C6: on every completed run the exit code is `0` exactly when the total
score reaches `PASS_THRESHOLD = 24` and `1` otherwise, and the score is the
sum of the awarded points of the 13 checks. -/
theorem exit_code_threshold (st : DirState) (r : RunResult)
    (h : runMain st = Except.ok r) :
    (r.exitCode = 0 ↔ 24 ≤ r.score) ∧
    (r.exitCode = 1 ↔ r.score < 24) ∧
    r.score = (r.checks.map CheckResult.points).sum := by
  obtain ⟨ss, hs, hchecks, hscore, hmax, hexit⟩ := runMain_ok_inv st r h
  refine ⟨?_, ?_, hscore⟩ <;>
    · rw [hexit, PASS_THRESHOLD]
      by_cases hc : 24 ≤ r.score <;> simp [hc] <;> omega

/-- Witness for C6 at the empty directory state. -/
theorem exit_code_threshold_witness :
    ∃ r, runMain ⟨SkillFile.absent, false, 0, false, 0,
        JsonFile.absent, JsonFile.absent⟩ = Except.ok r ∧
      ((r.exitCode = 0 ↔ 24 ≤ r.score) ∧
       (r.exitCode = 1 ↔ r.score < 24) ∧
       r.score = (r.checks.map CheckResult.points).sum) := by
  cases hr : runMain ⟨SkillFile.absent, false, 0, false, 0,
      JsonFile.absent, JsonFile.absent⟩ with
  | error e =>
    cases e
    exact absurd hr (by decide)
  | ok r => exact ⟨r, rfl, exit_code_threshold _ r hr⟩

/-! ## Claim C3: the auto-invocation pattern -/

theorem autoInvocAt_iff (cs : List Char) :
    autoInvocAt cs = true ↔
    ∃ m s, cs = autoKey ++ m ++ invocKey ++ s ∧
      (m = [] ∨ ∃ c, m = [c] ∧ ¬c = '\n') := by
  unfold autoInvocAt
  constructor
  · intro h
    simp only [Bool.and_eq_true] at h
    obtain ⟨hp, hrest⟩ := h
    rcases List.isPrefixOf_iff_prefix.mp hp with ⟨t, ht⟩
    have hdrop : cs.drop 4 = t := by rw [← ht]; rfl
    rw [hdrop] at hrest
    simp only [Bool.or_eq_true] at hrest
    rcases hrest with hi | hm
    · rcases List.isPrefixOf_iff_prefix.mp hi with ⟨s, hs⟩
      refine ⟨[], s, ?_, Or.inl rfl⟩
      rw [← ht, ← hs]
      simp
    · cases t with
      | nil => simp at hm
      | cons c r =>
        simp only [Bool.and_eq_true] at hm
        obtain ⟨hc, hi⟩ := hm
        rcases List.isPrefixOf_iff_prefix.mp hi with ⟨s, hs⟩
        refine ⟨[c], s, ?_, Or.inr ⟨c, rfl, by simpa using hc⟩⟩
        rw [← ht, ← hs]
        simp
  · rintro ⟨m, s, rfl, hm⟩
    simp only [Bool.and_eq_true, Bool.or_eq_true]
    rcases hm with rfl | ⟨c, rfl, hc⟩
    · refine ⟨List.isPrefixOf_iff_prefix.mpr ⟨[] ++ invocKey ++ s, by simp⟩, Or.inl ?_⟩
      have hd : (autoKey ++ [] ++ invocKey ++ s).drop 4 = invocKey ++ s := by
        simp [autoKey]
      rw [hd]
      exact List.isPrefixOf_iff_prefix.mpr ⟨s, rfl⟩
    · refine ⟨List.isPrefixOf_iff_prefix.mpr ⟨[c] ++ invocKey ++ s, by simp⟩, Or.inr ?_⟩
      have hd : (autoKey ++ [c] ++ invocKey ++ s).drop 4 = c :: (invocKey ++ s) := by
        simp [autoKey]
      rw [hd]
      simp only [Bool.and_eq_true]
      exact ⟨by simpa using hc, List.isPrefixOf_iff_prefix.mpr ⟨s, rfl⟩⟩

theorem autoInvocSearch_iff (cs : List Char) :
    autoInvocSearch cs = true ↔
    ∃ p m s, cs = p ++ autoKey ++ m ++ invocKey ++ s ∧
      (m = [] ∨ ∃ c, m = [c] ∧ ¬c = '\n') := by
  induction cs with
  | nil =>
    simp only [autoInvocSearch]
    constructor
    · intro h; cases h
    · rintro ⟨p, m, s, hp, -⟩
      exact absurd hp.symm (by simp [autoKey])
  | cons c rest ih =>
    simp only [autoInvocSearch, Bool.or_eq_true, autoInvocAt_iff, ih]
    constructor
    · rintro (⟨m, s, heq, hm⟩ | ⟨p, m, s, heq, hm⟩)
      · exact ⟨[], m, s, by simpa using heq, hm⟩
      · exact ⟨c :: p, m, s, by simp [heq], hm⟩
    · rintro ⟨p, m, s, heq, hm⟩
      cases p with
      | nil => exact Or.inl ⟨m, s, by simpa using heq, hm⟩
      | cons d p =>
        right
        simp only [List.cons_append] at heq
        exact ⟨p, m, s, (List.cons_eq_cons.mp heq).2, hm⟩

/-- C3 (amended): quality check 1 awards its 2 points exactly when the
lowercased body contains `auto`, then at most one optional non-newline
character, then `invoc`.  The phrase `Auto-Invocation` passes. -/
theorem auto_invoc_check_iff (body : String) :
    ((qualityCheck1 body).points = 2 ↔
      ∃ p m s, body.data.map Char.toLower = p ++ autoKey ++ m ++ invocKey ++ s ∧
        (m = [] ∨ ∃ c, m = [c] ∧ ¬c = '\n')) ∧
    (qualityCheck1 "Auto-Invocation").passed = true ∧
    (qualityCheck1 "Auto-Invocation").points = 2 := by
  refine ⟨?_, by decide, by decide⟩
  have hpts : (qualityCheck1 body).points = 2 ↔
      (qualityCheck1 body).passed = true := by
    by_cases h : !body.isEmpty && containsAutoInvoc body <;> simp [qualityCheck1, h]
  rw [hpts]
  simp only [qualityCheck1, Bool.and_eq_true, containsAutoInvoc,
    autoInvocSearch_iff]
  constructor
  · rintro ⟨-, hs⟩
    exact hs
  · rintro ⟨p, m, s, heq, hm⟩
    refine ⟨?_, ⟨p, m, s, heq, hm⟩⟩
    have hlen : body.data.length = (p ++ autoKey ++ m ++ invocKey ++ s).length := by
      rw [← heq]; simp
    rw [Bool.not_eq_true', Bool.eq_false_iff]
    intro hemp
    rw [String.isEmpty_iff body] at hemp
    rw [hemp] at hlen
    simp [autoKey, invocKey] at hlen
    omega

/-- C3 counterexample: the body `automatic invocation` contains `auto`
followed by characters followed by `invoc`, yet quality check 1 fails on
it, because the code pattern `auto.?invoc` allows at most one character in
between. -/
theorem automatic_invocation_fails_check :
    (qualityCheck1 "automatic invocation").passed = false ∧
    (qualityCheck1 "automatic invocation").points = 0 ∧
    (∃ m s, "automatic invocation".data.map Char.toLower =
        autoKey ++ m ++ invocKey ++ s) := by
  refine ⟨by decide, by decide, "matic ".data, "ation".data, by decide⟩

/-! ## Shape lemmas for the three evaluators -/

theorem validate_critical_length (b : Bool) (c : Option String) :
    (validate_critical b c).length = 5 := by
  cases c with
  | none => rfl
  | some s =>
    by_cases h : s.isEmpty <;> simp [validate_critical, h, criticalPlaceholders]

theorem validate_critical_maxSum (b : Bool) (c : Option String) :
    ((validate_critical b c).map CheckResult.maxPoints).sum = 15 := by
  cases c with
  | none => rfl
  | some s =>
    by_cases h : s.isEmpty <;>
      simp [validate_critical, h, criticalPlaceholders, criticalNameCheck,
        criticalDescCheck, criticalBodyCheck]

theorem validate_structure_ok (re : Bool) (rm : Nat) (ce : Bool) (cm : Nat)
    (cj pj : JsonFile) (hcj : cj ≠ JsonFile.scalar) (hpj : pj ≠ JsonFile.scalar) :
    ∃ ss, validate_structure re rm ce cm cj pj = Except.ok ss ∧
      ss.length = 4 ∧ (ss.map CheckResult.maxPoints).sum = 7 := by
  cases cj <;> cases pj <;>
    first
      | exact absurd rfl hcj
      | exact absurd rfl hpj
      | exact ⟨_, rfl, rfl, rfl⟩

theorem validate_structure_form (re : Bool) (rm : Nat) (ce : Bool) (cm : Nat)
    (cj pj : JsonFile) (hcj : cj ≠ JsonFile.scalar) (hpj : pj ≠ JsonFile.scalar) :
    ∃ c1 c2 b3 b4,
      validate_structure re rm ce cm cj pj = Except.ok
        [c1, c2, ⟨".claude-skill.json valid", b3, cond b3 2 0, 2, ""⟩,
         ⟨"package.json valid", b4, cond b4 1 0, 1, ""⟩] ∧
      ((cj = JsonFile.absent ∨ cj = JsonFile.unreadable ∨
          cj = JsonFile.malformed) → b3 = false) ∧
      ((pj = JsonFile.absent ∨ pj = JsonFile.unreadable ∨
          pj = JsonFile.malformed) → b4 = false) := by
  cases cj <;> cases pj <;>
    first
      | exact absurd rfl hcj
      | exact absurd rfl hpj
      | refine ⟨_, _, _, _, rfl, ?_, ?_⟩ <;>
          rintro (h | h | h) <;> first | rfl | exact JsonFile.noConfusion h

theorem parse_of_fmMatch_none (s : String) (h : fmMatch s.data = none) :
    parse_frontmatter s = ⟨none, s, some "No YAML frontmatter found"⟩ := by
  unfold parse_frontmatter
  rw [h]

theorem parse_frontmatter_none (s : String)
    (h : (parse_frontmatter s).data = none) :
    parse_frontmatter s = ⟨none, s, some "No YAML frontmatter found"⟩ := by
  unfold parse_frontmatter at h ⊢
  cases hm : fmMatch s.data with
  | none => rfl
  | some p =>
    rw [hm] at h
    simp at h

/-! ## Claim C1: always 13 checks, 5+4+4, maximum 29 points -/

/-- C1: for every directory state built from missing, unreadable,
malformed or well-formed files, the run completes with the critical,
structure and quality check lists concatenated in that order, of lengths
5, 4 and 4, and the `maxPoints` fields sum to 29. -/
theorem thirteen_checks_five_four_four (st : DirState)
    (hcj : st.claudeJson ≠ JsonFile.scalar)
    (hpj : st.pkgJson ≠ JsonFile.scalar) :
    ∃ r ss,
      runMain st = Except.ok r ∧
      validate_structure st.refsExists st.refsMd st.cmdsExists st.cmdsMd
        st.claudeJson st.pkgJson = Except.ok ss ∧
      r.checks =
        validate_critical (skillIsFile st.skill) (skillContent st.skill) ++ ss ++
          validate_quality (mainBodyDesc (skillContent st.skill)).1
            (mainBodyDesc (skillContent st.skill)).2 ∧
      (validate_critical (skillIsFile st.skill) (skillContent st.skill)).length = 5 ∧
      ss.length = 4 ∧
      (validate_quality (mainBodyDesc (skillContent st.skill)).1
        (mainBodyDesc (skillContent st.skill)).2).length = 4 ∧
      r.checks.length = 13 ∧
      (r.checks.map CheckResult.maxPoints).sum = 29 := by
  obtain ⟨ss, hss, hlen4, hmax7⟩ := validate_structure_ok st.refsExists st.refsMd
    st.cmdsExists st.cmdsMd st.claudeJson st.pkgJson hcj hpj
  refine ⟨_, ss, runMain_eq_ok st ss hss, hss, rfl, validate_critical_length _ _,
    hlen4, validate_quality_length _ _, ?_, ?_⟩
  · simp [validate_critical_length, hlen4, validate_quality_length]
  · simp [validate_critical_maxSum, hmax7, validate_quality_maxSum]

/-- Witness for C1 at the empty directory. -/
theorem thirteen_checks_five_four_four_witness :
    ∃ r, runMain ⟨SkillFile.absent, false, 0, false, 0,
        JsonFile.absent, JsonFile.absent⟩ = Except.ok r ∧
      r.checks.length = 13 ∧
      (r.checks.map CheckResult.maxPoints).sum = 29 := by
  obtain ⟨r, ss, h1, -, -, -, -, -, h7, h8⟩ :=
    thirteen_checks_five_four_four
      ⟨SkillFile.absent, false, 0, false, 0, JsonFile.absent, JsonFile.absent⟩
      (by decide) (by decide)
  exact ⟨r, h1, h7, h8⟩

/-! ## Claim C2: read and parse failures never abort the run -/

/-- C2 (amended): on every directory state in which each JSON file that
parses yields a container value, every listed failure (missing or
unreadable manifest, missing/unreadable/malformed JSON, front matter not
matching the delimiter pattern) is converted locally into a failing check
with zero points, and all 13 checks are produced.  (A JSON document whose
top-level value is a scalar instead aborts the run; see the
counterexample.) -/
theorem no_listed_failure_aborts (st : DirState)
    (hcj : st.claudeJson ≠ JsonFile.scalar)
    (hpj : st.pkgJson ≠ JsonFile.scalar) :
    ∃ r ss,
      runMain st = Except.ok r ∧
      validate_structure st.refsExists st.refsMd st.cmdsExists st.cmdsMd
        st.claudeJson st.pkgJson = Except.ok ss ∧
      r.checks =
        validate_critical (skillIsFile st.skill) (skillContent st.skill) ++ ss ++
          validate_quality (mainBodyDesc (skillContent st.skill)).1
            (mainBodyDesc (skillContent st.skill)).2 ∧
      r.checks.length = 13 ∧
      (st.skill = SkillFile.absent →
        (validate_critical (skillIsFile st.skill) (skillContent st.skill))[0]? =
          some ⟨"SKILL.md exists", false, 0, 3, ""⟩) ∧
      (skillContent st.skill = none →
        ∀ chk ∈ (validate_critical (skillIsFile st.skill)
            (skillContent st.skill)).drop 1,
          chk.passed = false ∧ chk.points = 0) ∧
      (∀ s, st.skill = SkillFile.readable s → s.isEmpty = false →
        (parse_frontmatter s).data = none →
        (validate_critical (skillIsFile st.skill) (skillContent st.skill))[1]? =
          some ⟨"Valid YAML frontmatter", false, 0, 3, "No YAML frontmatter found"⟩) ∧
      ((st.claudeJson = JsonFile.absent ∨ st.claudeJson = JsonFile.unreadable ∨
          st.claudeJson = JsonFile.malformed) →
        ss[2]? = some ⟨".claude-skill.json valid", false, 0, 2, ""⟩) ∧
      ((st.pkgJson = JsonFile.absent ∨ st.pkgJson = JsonFile.unreadable ∨
          st.pkgJson = JsonFile.malformed) →
        ss[3]? = some ⟨"package.json valid", false, 0, 1, ""⟩) := by
  obtain ⟨sc1, sc2, b3, b4, hss, hb3, hb4⟩ := validate_structure_form st.refsExists
    st.refsMd st.cmdsExists st.cmdsMd st.claudeJson st.pkgJson hcj hpj
  refine ⟨_, _, runMain_eq_ok st _ hss, hss, rfl, ?_, ?_, ?_, ?_, ?_, ?_⟩
  · simp only [List.length_append, validate_critical_length,
      validate_quality_length, List.length_cons, List.length_nil]
  · intro h
    rw [h]
    rfl
  · intro h
    rw [h]
    intro chk hm
    have hcrit : validate_critical (skillIsFile st.skill) none =
        ⟨"SKILL.md exists", skillIsFile st.skill,
          cond (skillIsFile st.skill) 3 0, 3, ""⟩ :: criticalPlaceholders := rfl
    rw [hcrit] at hm
    simp only [criticalPlaceholders, List.drop_succ_cons, List.drop_zero,
      List.mem_cons, List.not_mem_nil, or_false] at hm
    rcases hm with rfl | rfl | rfl | rfl <;> exact ⟨rfl, rfl⟩
  · intro s hs hempty hdata
    rw [hs]
    have hcrit : validate_critical (skillIsFile (SkillFile.readable s))
        (skillContent (SkillFile.readable s)) =
        [⟨"SKILL.md exists", true, 3, 3, ""⟩,
         ⟨"Valid YAML frontmatter", false, 0, 3, "No YAML frontmatter found"⟩,
         criticalNameCheck (parse_frontmatter s).data,
         criticalDescCheck (parse_frontmatter s).data,
         criticalBodyCheck s] := by
      show validate_critical true (some s) = _
      rw [validate_critical]
      simp only [hempty, Bool.false_eq_true, if_false]
      rw [parse_frontmatter_none s hdata]
      rfl
    rw [hcrit]
    rfl
  · intro h
    rw [hb3 h]
    rfl
  · intro h
    rw [hb4 h]
    rfl

/-- Witness for C2 at a directory whose manifest is unreadable and whose
JSON files are malformed. -/
theorem no_listed_failure_aborts_witness :
    ∃ (r : RunResult) (ss : List CheckResult),
      runMain ⟨SkillFile.unreadable, false, 0, false, 0,
        JsonFile.malformed, JsonFile.malformed⟩ = Except.ok r ∧
      r.checks.length = 13 ∧
      ss[2]? = some ⟨".claude-skill.json valid", false, 0, 2, ""⟩ := by
  obtain ⟨r, ss, h1, -, -, h2, -, -, -, h6, -⟩ :=
    no_listed_failure_aborts
      ⟨SkillFile.unreadable, false, 0, false, 0, JsonFile.malformed,
        JsonFile.malformed⟩ (by decide) (by decide)
  exact ⟨r, ss, h1, h2, h6 (Or.inr (Or.inr rfl))⟩

/-- C2 counterexample: a directory whose `.claude-skill.json` parses to a
scalar JSON value (for example the document `null`) makes the membership
test `'name' in data` raise an uncaught `TypeError`: the run aborts before
the quality checks, the report and the exit-code computation. -/
theorem scalar_json_aborts_run :
    runMain ⟨SkillFile.absent, false, 0, false, 0, JsonFile.scalar,
      JsonFile.absent⟩ = Except.error () := rfl

/-! ## Claim C4: idempotence of front-matter extraction -/

/-- C4 (amended): extraction is idempotent unless the extracted body itself
begins with a front-matter delimiter: whenever extraction succeeds and the
returned body does not start with `---`, re-parsing the body reports the
no-front-matter condition and returns the whole body as body text. -/
theorem no_reextraction_unless_body_delimited (content : String)
    (hok : (parse_frontmatter content).data.isSome = true)
    (hb : ¬ ((['-', '-', '-'].isPrefixOf
        (parse_frontmatter content).body.data) = true)) :
    (parse_frontmatter content).error = none ∧
    parse_frontmatter (parse_frontmatter content).body =
      ⟨none, (parse_frontmatter content).body,
        some "No YAML frontmatter found"⟩ := by
  have hmatch : fmMatch (parse_frontmatter content).body.data = none := by
    unfold fmMatch
    rw [if_neg hb]
  refine ⟨?_, parse_of_fmMatch_none _ hmatch⟩
  unfold parse_frontmatter at hok ⊢
  cases hm : fmMatch content.data with
  | none =>
    rw [hm] at hok
    cases hok
  | some p =>
    obtain ⟨ft, bd⟩ := p
    rfl

/-- Witness for C4 on a well-formed single-block document. -/
theorem no_reextraction_unless_body_delimited_witness :
    (parse_frontmatter "---\nname: x\n---\nbody").data.isSome = true ∧
    ((parse_frontmatter "---\nname: x\n---\nbody").error = none ∧
      parse_frontmatter (parse_frontmatter "---\nname: x\n---\nbody").body =
        ⟨none, (parse_frontmatter "---\nname: x\n---\nbody").body,
          some "No YAML frontmatter found"⟩) :=
  ⟨by decide, no_reextraction_unless_body_delimited "---\nname: x\n---\nbody"
    (by decide) (by decide)⟩

/-- C4 counterexample: on a document whose body opens with a second
delimited block, re-parsing the extracted body extracts that second
front-matter block, so extraction is not idempotent as stated. -/
theorem reextraction_counterexample :
    (parse_frontmatter "---\na\n---\n---\nb\n---\nrest").data.isSome = true ∧
    (parse_frontmatter "---\na\n---\n---\nb\n---\nrest").body =
      "---\nb\n---\nrest" ∧
    (parse_frontmatter
      (parse_frontmatter "---\na\n---\n---\nb\n---\nrest").body).data.isSome =
      true ∧
    (parse_frontmatter
      (parse_frontmatter "---\na\n---\n---\nb\n---\nrest").body).body =
      "rest" := by
  refine ⟨?_, ?_, ?_, ?_⟩ <;> decide

/-! ## Lemmas about the `name:` value regex -/

theorem dropWhile_head_false (p : Char → Bool) :
    ∀ (cs : List Char) (x : Char) (t : List Char),
      cs.dropWhile p = x :: t → p x = false := by
  intro cs
  induction cs with
  | nil => intro x t h; cases h
  | cons c rest ih =>
    intro x t h
    by_cases hc : p c
    · rw [List.dropWhile_cons_of_pos hc] at h
      exact ih x t h
    · rw [List.dropWhile_cons_of_neg hc] at h
      cases h
      exact Bool.not_eq_true _ ▸ (Bool.eq_false_iff.mpr hc)

theorem nameValue_ws_prefix (w : List Char) (x : Char) (t : List Char)
    (hw : ∀ c ∈ w, isWs c = true) (hx : isWs x = false) :
    nameValue (w ++ x :: t) =
      some (x :: t.takeWhile (fun d => !(d = '\n'))) := by
  induction w with
  | nil =>
    simp only [List.nil_append, nameValue, hx, Bool.false_eq_true, if_false]
  | cons c w ih =>
    have hc : isWs c = true := hw c (by simp)
    have hrec := ih (fun d hd => hw d (by simp [hd]))
    simp only [List.cons_append, nameValue, hc, if_true]
    have hrec2 : nameValue (w.append (x :: t)) =
        some (x :: t.takeWhile (fun d => !(d = '\n'))) := hrec
    rw [hrec2]

theorem dropWhile_ws_append (w cs : List Char)
    (hw : ∀ c ∈ w, isWs c = true) :
    (w ++ cs).dropWhile isWs = cs.dropWhile isWs := by
  induction w with
  | nil => rfl
  | cons c w ih =>
    rw [List.cons_append, List.dropWhile_cons_of_pos (hw c (by simp))]
    exact ih fun d hd => hw d (by simp [hd])

theorem stripWs_ws_append (w cs : List Char)
    (hw : ∀ c ∈ w, isWs c = true) :
    stripWs (w ++ cs) = stripWs cs := by
  unfold stripWs
  rw [dropWhile_ws_append w cs hw]

theorem takeWhile_noNl_append (t r : List Char)
    (ht : ∀ c ∈ t, ¬c = '\n')
    (hr : r = [] ∨ ∃ u, r = '\n' :: u) :
    (t ++ r).takeWhile (fun d => !(d = '\n')) = t := by
  induction t with
  | nil =>
    rcases hr with rfl | ⟨u, rfl⟩
    · rfl
    · simp [List.takeWhile]
  | cons c t ih =>
    have hc : ¬c = '\n' := ht c (by simp)
    rw [List.cons_append, List.takeWhile_cons_of_pos (by simpa using hc)]
    rw [ih fun d hd => ht d (by simp [hd])]

theorem nameValue_no_newline :
    ∀ (cs v : List Char), nameValue cs = some v → ∀ c ∈ v, ¬c = '\n' := by
  intro cs
  induction cs with
  | nil => intro v h; cases h
  | cons c rest ih =>
    intro v h d hd
    by_cases hc : isWs c
    · rw [nameValue, if_pos hc] at h
      cases hrec : nameValue rest with
      | some u =>
        rw [hrec] at h
        cases h
        exact ih _ hrec d hd
      | none =>
        rw [hrec] at h
        by_cases hnl : c = '\n'
        · rw [if_pos hnl] at h; cases h
        · rw [if_neg hnl] at h
          cases h
          rcases List.mem_cons.mp hd with rfl | hd2
          · exact hnl
          · simpa using List.mem_takeWhile_imp hd2
    · rw [nameValue, if_neg hc] at h
      cases h
      rcases List.mem_cons.mp hd with rfl | hd2
      · intro hdn
        exact hc (by rw [hdn]; decide)
      · simpa using List.mem_takeWhile_imp hd2

theorem keyLineSearch_no_newline (key : List Char) :
    ∀ (lines : List (List Char)) (g : List Char),
      keyLineSearch key lines = some g → ∀ c ∈ g, ¬c = '\n' := by
  intro lines
  induction lines with
  | nil => intro g h; cases h
  | cons l rest ih =>
    intro g h
    by_cases hp : key.isPrefixOf l
    · rw [keyLineSearch, if_pos hp] at h
      cases hv : nameValue (l.drop key.length ++ tailJoin rest) with
      | some v =>
        rw [hv] at h
        cases h
        exact nameValue_no_newline _ _ hv
      | none =>
        rw [hv] at h
        exact ih g h
    · rw [keyLineSearch, if_neg hp] at h
      exact ih g h

theorem keyLineSearch_of_find? :
    ∀ (lines : List (List Char)) (l : List Char),
      (∀ m ∈ lines, '\n' ∉ m) →
      lines.find? (fun m => nameKey.isPrefixOf m) = some l →
      stripWs (l.drop nameKey.length) ≠ [] →
      ∃ g, keyLineSearch nameKey lines = some g ∧
        stripWs g = stripWs (l.drop nameKey.length) := by
  intro lines
  induction lines with
  | nil => intro l _ hfind _; cases hfind
  | cons m rest ih =>
    intro l hnl hfind hne
    by_cases hp : nameKey.isPrefixOf m
    · have hlm : l = m := by
        rw [List.find?_cons_of_pos rest hp] at hfind
        exact (Option.some.inj hfind).symm
      subst hlm
      have hd : (l.drop nameKey.length).dropWhile isWs ≠ [] := by
        intro h0
        apply hne
        unfold stripWs
        rw [h0]
        rfl
      obtain ⟨x, t, hdw⟩ : ∃ x t, (l.drop nameKey.length).dropWhile isWs = x :: t := by
        cases hcase : (l.drop nameKey.length).dropWhile isWs with
        | nil => exact absurd hcase hd
        | cons x t => exact ⟨x, t, rfl⟩
      have hx : isWs x = false := dropWhile_head_false isWs _ x t hdw
      have hsplit : l.drop nameKey.length =
          (l.drop nameKey.length).takeWhile isWs ++ (x :: t) := by
        rw [← hdw]
        exact (List.takeWhile_append_dropWhile isWs _).symm
      have hw : ∀ c ∈ (l.drop nameKey.length).takeWhile isWs, isWs c = true :=
        fun c hc => List.mem_takeWhile_imp hc
      have ht : ∀ c ∈ t, ¬c = '\n' := by
        intro c hc heq
        apply hnl l (by simp)
        rw [heq] at hc
        have h1 : '\n' ∈ (l.drop nameKey.length).dropWhile isWs := by
          rw [hdw]; simp [hc]
        have h2 : '\n' ∈ l.drop nameKey.length :=
          (List.dropWhile_suffix isWs).subset h1
        exact (List.drop_subset _ l) h2
      have htail : tailJoin rest = [] ∨ ∃ u, tailJoin rest = '\n' :: u := by
        cases rest with
        | nil => exact Or.inl rfl
        | cons a as => exact Or.inr ⟨joinNl (a :: as), rfl⟩
      have hv : nameValue (l.drop nameKey.length ++ tailJoin rest) =
          some (x :: t) := by
        rw [hsplit, List.append_assoc, List.cons_append,
          nameValue_ws_prefix _ x _ hw hx,
          takeWhile_noNl_append t _ ht htail]
      refine ⟨x :: t, ?_, ?_⟩
      · rw [keyLineSearch, if_pos hp, hv]
      · rw [hsplit, stripWs_ws_append _ _ hw]
    · have hstep : keyLineSearch nameKey (m :: rest) = keyLineSearch nameKey rest := by
        rw [keyLineSearch, if_neg hp]
      rw [List.find?_cons_of_neg rest hp] at hfind
      rw [hstep]
      exact ih l (fun a ha => hnl a (by simp [ha])) hfind hne

/-! ## Claim C5: the extracted `name` value -/

/-- C5 (amended): for every front-matter text whose first `name:`-prefixed
line has a remainder that is not all whitespace, the extracted name value
is that remainder with surrounding whitespace stripped and then ALL leading
and trailing quote characters (single or double, in any combination,
regardless of pairing) stripped. -/
theorem name_field_extraction (fm : List Char) (l : List Char)
    (hfind : (splitNl fm).find? (fun m => nameKey.isPrefixOf m) = some l)
    (hne : stripWs (l.drop nameKey.length) ≠ []) :
    (fmFields fm).name =
      some (String.mk (stripQuoteChars (stripWs (l.drop nameKey.length)))) := by
  obtain ⟨g, hg, hstrip⟩ := keyLineSearch_of_find? (splitNl fm) l
    (splitNl_no_newline fm) hfind hne
  have hname : (fmFields fm).name = (keyLineSearch nameKey (splitNl fm)).map
      (fun g => String.mk (stripQuoteChars (stripWs g))) := rfl
  rw [hname, hg, Option.map_some']
  rw [hstrip]

/-- Witness for C5 on a plain `name:` line. -/
theorem name_field_extraction_witness :
    (splitNl "name: my-skill".data).find? (fun m => nameKey.isPrefixOf m) =
      some "name: my-skill".data ∧
    (fmFields "name: my-skill".data).name =
      some (String.mk (stripQuoteChars
        (stripWs ("name: my-skill".data.drop nameKey.length)))) :=
  ⟨by decide, name_field_extraction "name: my-skill".data "name: my-skill".data
    (by decide) (by decide)⟩

/-- The front-matter line `name: 'my-skill"` whose value carries one single
and one double quote that do NOT form a matching pair. -/
def quoteNameLine : List Char :=
  "name: ".data ++ '\x27' :: ("my-skill".data ++ ['"'])

/-- C5 counterexample: on a value wrapped in MISMATCHED quotes the code
still strips both of them (Python `.strip(chars)` removes any leading and
trailing characters of the set), while the claim keeps quotes that do not
form a matching pair. -/
theorem name_quote_stripping_counterexample :
    (fmFields quoteNameLine).name = some "my-skill" ∧
    stripWs (quoteNameLine.drop nameKey.length) =
      '\x27' :: ("my-skill".data ++ ['"']) ∧
    ¬(fmFields quoteNameLine).name =
      some (String.mk ('\x27' :: ("my-skill".data ++ ['"']))) := by
  refine ⟨by decide, by decide, by decide⟩

/-! ## Claim C9: the `name` validity check -/

theorem mem_stripWs (a : Char) (cs : List Char) (h : a ∈ stripWs cs) :
    a ∈ cs := by
  unfold stripWs at h
  rw [List.mem_reverse] at h
  have h1 := (List.dropWhile_suffix isWs).subset h
  rw [List.mem_reverse] at h1
  exact (List.dropWhile_suffix isWs).subset h1

theorem mem_stripQuoteChars (a : Char) (cs : List Char)
    (h : a ∈ stripQuoteChars cs) : a ∈ cs := by
  unfold stripQuoteChars at h
  rw [List.mem_reverse] at h
  have h1 := (List.dropWhile_suffix isQuote).subset h
  rw [List.mem_reverse] at h1
  exact (List.dropWhile_suffix isQuote).subset h1

theorem parse_name_no_newline (s : String) (d : FrontMatter) (n : String)
    (hd : (parse_frontmatter s).data = some d) (hn : d.name = some n) :
    '\n' ∉ n.data := by
  unfold parse_frontmatter at hd
  cases hm : fmMatch s.data with
  | none => rw [hm] at hd; cases hd
  | some p =>
    obtain ⟨ft, bd⟩ := p
    rw [hm] at hd
    simp only [Option.some.injEq] at hd
    subst hd
    have hmap : (keyLineSearch nameKey (splitNl ft)).map
        (fun g => String.mk (stripQuoteChars (stripWs g))) = some n := hn
    cases hk : keyLineSearch nameKey (splitNl ft) with
    | none => rw [hk] at hmap; cases hmap
    | some g =>
      rw [hk, Option.map_some'] at hmap
      have hng := keyLineSearch_no_newline nameKey _ g hk
      have hne : n = String.mk (stripQuoteChars (stripWs g)) :=
        (Option.some.inj hmap).symm
      subst hne
      intro hmem
      exact hng '\n' (mem_stripWs _ _ (mem_stripQuoteChars _ _ hmem)) rfl

theorem nameRegexMatch_of_no_newline (n : String) (h : '\n' ∉ n.data) :
    nameRegexMatch n = (!n.data.isEmpty && n.data.all isNameChar) := by
  unfold nameRegexMatch
  split
  · rename_i hl
    have hnil : n.data = [] := List.getLast?_eq_none_iff.mp hl
    rw [hnil]
    rfl
  · rename_i c hl
    have hmem : c ∈ n.data := List.mem_of_mem_getLast? (by simp [hl])
    have hc : ¬c = '\n' := fun he => h (he ▸ hmem)
    rw [if_neg hc]
    have hnonnil : n.data ≠ [] := by
      intro he
      rw [he] at hmem
      cases hmem
    have hfalse : n.data.isEmpty = false := by
      cases hcase : n.data with
      | nil => exact absurd hcase hnonnil
      | cons a as => rfl
    rw [hfalse]
    rfl

/-- C9: for every parsed front matter, critical check 3 passes exactly when
the `name` field is present, non-empty, made exclusively of lowercase
letters, digits and hyphens, and at most 64 characters long; a name with an
uppercase letter, a space or an underscore fails the check. -/
theorem name_check_characterization (s : String) (d : FrontMatter)
    (hparse : (parse_frontmatter s).data = some d) :
    ((criticalNameCheck (some d)).passed = true ↔
      ∃ n, d.name = some n ∧ ¬n = "" ∧
        (∀ c ∈ n.data, ('a' ≤ c ∧ c ≤ 'z') ∨ ('0' ≤ c ∧ c ≤ '9') ∨ c = '-') ∧
        n.length ≤ 64) ∧
    (∀ n, d.name = some n →
      (∃ c ∈ n.data, ('A' ≤ c ∧ c ≤ 'Z') ∨ c = ' ' ∨ c = '_') →
      (criticalNameCheck (some d)).passed = false) := by
  have hpassed0 : (criticalNameCheck (some d)).passed =
      (!(d.name.getD "").isEmpty && nameRegexMatch (d.name.getD "") &&
        decide ((d.name.getD "").length ≤ MAX_NAME_LEN)) := rfl
  constructor
  · cases hn : d.name with
    | none =>
      constructor
      · intro hpass
        rw [hpassed0, hn] at hpass
        exact absurd hpass (by decide)
      · rintro ⟨n, hsome, -⟩
        cases hsome
    | some n =>
      have hnl : '\n' ∉ n.data := parse_name_no_newline s d n hparse hn
      have hreg := nameRegexMatch_of_no_newline n hnl
      rw [hpassed0, hn]
      simp only [Option.getD_some]
      rw [hreg]
      constructor
      · intro h
        simp only [Bool.and_eq_true, Bool.not_eq_true',
          decide_eq_true_eq, List.all_eq_true] at h
        obtain ⟨⟨h1, h2, h3⟩, h4⟩ := h
        refine ⟨n, rfl, ?_, ?_, h4⟩
        · intro he
          rw [he] at h1
          exact absurd h1 (by decide)
        · intro c hc
          have hic := h3 c hc
          simp only [isNameChar, Bool.or_eq_true, Bool.and_eq_true,
            decide_eq_true_eq] at hic
          rcases hic with (hh | hh) | hh
          · exact Or.inl hh
          · exact Or.inr (Or.inl hh)
          · exact Or.inr (Or.inr hh)
      · rintro ⟨n2, hsome, hne, hall, hlen⟩
        obtain rfl : n = n2 := Option.some.inj hsome
        simp only [Bool.and_eq_true, Bool.not_eq_true',
          decide_eq_true_eq, List.all_eq_true]
        refine ⟨⟨?_, ?_, ?_⟩, hlen⟩
        · cases hcase : n.isEmpty with
          | true => exact absurd ((String.isEmpty_iff n).mp hcase) hne
          | false => rfl
        · cases hcase : n.data.isEmpty with
          | true =>
            have hd : n.data = [] := List.isEmpty_iff.mp hcase
            exact absurd (String.ext (by rw [hd])) hne
          | false => rfl
        · intro c hc
          have hic := hall c hc
          simp only [isNameChar, Bool.or_eq_true, Bool.and_eq_true,
            decide_eq_true_eq]
          rcases hic with hh | hh | hh
          · exact Or.inl (Or.inl hh)
          · exact Or.inl (Or.inr hh)
          · exact Or.inr hh
  · intro n hn hbad
    obtain ⟨c, hc, hbadc⟩ := hbad
    have hcf : isNameChar c = false := by
      rw [Bool.eq_false_iff]
      intro htrue
      simp only [isNameChar, Bool.or_eq_true, Bool.and_eq_true,
        decide_eq_true_eq] at htrue
      rcases hbadc with ⟨hb1, hb2⟩ | rfl | rfl
      · rcases htrue with (⟨ha1, -⟩ | ⟨-, ha2⟩) | rfl
        · exact absurd (le_trans ha1 hb2) (by decide)
        · exact absurd (le_trans hb1 ha2) (by decide)
        · exact absurd hb1 (by decide)
      · revert htrue; decide
      · revert htrue; decide
    have hnl : '\n' ∉ n.data := parse_name_no_newline s d n hparse hn
    have hreg := nameRegexMatch_of_no_newline n hnl
    have hall : n.data.all isNameChar = false :=
      List.all_eq_false.mpr ⟨c, hc, by simp [hcf]⟩
    rw [hpassed0, hn]
    simp only [Option.getD_some]
    rw [hreg, hall]
    simp

/-- Witness for C9 on a manifest with a valid `name`. -/
theorem name_check_characterization_witness :
    (criticalNameCheck (some ⟨some "my-skill", none⟩)).passed = true := by
  have h := name_check_characterization "---\nname: my-skill\n---\nb"
    ⟨some "my-skill", none⟩ (by decide)
  exact h.1.mpr ⟨"my-skill", rfl, by decide, by decide, by decide⟩

end SkillValidator
